import Mathlib

/-!
Formalisation of the multi-file dataset aggregator in `MFDataset.py`
(classes `Dataset`, `Dimension`, `Variable`).

The record variables of an aggregate dataset are stored as one list of
records per member file; a read along axis 0 fans out to the member files
and concatenates the partial results.  We embed the slicing algorithm of
`Variable.__getitem__` and the open-time construction of `Dataset.__init__`
as executable Lean functions and prove the spec's claims about them.

Modelling boundary: `netCDF4_classic` is an external collaborator.  Its
`_buildStartCountStride` resolves a high-level indexing expression into
per-axis `(start, count, stride)` triples, with `start` a resolved
non-negative offset, `count` possibly the sentinel `-1`, and `stride` a
possibly negative integer; our slicer takes those resolved triples as
input.  A member file's records are modelled as an opaque list `List α`;
the identical resolved slicing of axes `1..N-1` (the `newSlice` tail built
once at lines 223-226 and passed unchanged to each per-file collaborator
read) is modelled by a fixed per-record function `inner : α → α`.
-/

namespace MFDataset

/-- Python list-slicing semantics (index set): for a list of length `len`,
`l[a:b:s]` with `0 ≤ a` and `0 < s` selects the indices
`a, a+s, a+2s, ...` that are below both `b` and `len` (silent clipping at
the end of the list, exactly as Python slices behave). -/
def pySliceIdx (len a b s : Nat) : List Nat :=
  (List.range len).filter (fun i => decide (a ≤ i ∧ i < b ∧ s ∣ (i - a)))

/-- Python list slicing `l[a:b:s]` for non-negative `a` and positive `s`. -/
def pySlice (l : List α) (a b s : Nat) : List α :=
  (pySliceIdx l.length a b s).filterMap (fun i => l[i]?)

/-- Lines 211-216 of `MFDataset.py`: the zipped list of
`(record index inside its file, file index)` pairs, one pair per record of
the aggregate, in global record order.  `idx.extend(range(k));
vid.extend([n]*k)` for `n = 0, 1, ...`; the auxiliary argument is the file
index of the head of the remaining record-count list. -/
def recIndexAux : List Nat → Nat → List (Nat × Nat)
  | [], _ => []
  | k :: rest, n => ((List.range k).map (fun i => (i, n))) ++ recIndexAux rest (n + 1)

/-- `zip(idx, vid)` of lines 211-220. -/
def recIndex (recLen : List Nat) : List (Nat × Nat) := recIndexAux recLen 0

/-- Line 220: `lst = zip(idx, vid)[sta:stop:step]`, the selected
`(local offset, file index)` pairs in ascending global order. -/
def lstOf (recLen : List Nat) (sta stop s : Nat) : List (Nat × Nat) :=
  pySlice (recIndex recLen) sta stop s

/-- Line 233: `idx = [i for i,numv in lst if numv == n]`, the local offsets
selected inside member file `n`, in ascending order. -/
def localsOf (recLen : List Nat) (sta stop s n : Nat) : List Nat :=
  ((lstOf recLen sta stop s).filter (fun p => decide (p.2 = n))).map Prod.fst

/-- Lines 231-239, read planning: for each member file `n` in ascending
order, if the file contributes at least one selected record, one single
bounded strided axis-0 request `(n, idx[0], idx[-1] + 1)` (to be read with
the global step) is issued; untouched files are skipped. -/
def subReads (recLen : List Nat) (sta stop s : Nat) : List (Nat × Nat × Nat) :=
  (List.range recLen.length).filterMap (fun n =>
    match localsOf recLen sta stop s n with
    | [] => none
    | i :: is => some (n, i, is.getLastD i + 1))

/-- Error outcomes of `Variable.__getitem__`.  `negativeStride` is the
dedicated rejection of negative strides at lines 198-199 (raised in Python
as `IndexError('negative strides not allowed when slicing MFVariable
Variable instance')`; the spec's taxonomy calls it `UnsupportedSliceError`).
`zeroStep` is Python's `ValueError` from slicing the zipped list with a
zero step at line 220. -/
inductive SliceErr
  | negativeStride
  | zeroStep
  deriving DecidableEq, Repr

/-- A Python value returned by `Variable.__getitem__`: either a numpy
array produced by `numpy.concatenate` (line 243) or the plain Python list
`[]` returned unchanged when no member file was touched (line 244). -/
inductive PyVal (α : Type u)
  | ndarray (l : List α)
  | pylist (l : List α)
  deriving DecidableEq, Repr

/-- The element content of a returned Python value. -/
def PyVal.toList : PyVal α → List α
  | .ndarray l => l
  | .pylist l => l

/-- Lines 230-239: the list of per-file partial results, one array per
touched member file, in ascending file order.  Each partial result is the
collaborator read `netCDF4_classic.Variable.__getitem__(recVar[n],
(slice(idx[0], idx[-1]+1, step), <fixed tail>))`: the records at local
offsets `idx[0], idx[0]+step, ... ≤ idx[-1]`, each restricted by the fixed
inner slicing `inner` of axes `1..N-1`. -/
def mfRead (data : List (List α)) (inner : α → α) (sta stop s : Nat) : List (List α) :=
  (subReads (data.map List.length) sta stop s).map
    (fun r => (pySlice (data.getD r.1 []) r.2.1 r.2.2 s).map inner)

/-- `Variable.__getitem__` (lines 189-244) after the external
`_buildStartCountStride` call: normalise counts with `abs`, reject any
negative stride, resolve the axis-0 window `[sta, sta + count0*step)`,
fan out one bounded read per touched member file and concatenate, or
return the plain empty Python list when no file is touched. -/
def mfGetitem (data : List (List α)) (inner : α → α)
    (start : List Nat) (count stride : List Int) : Except SliceErr (PyVal α) :=
  let cnt : List Nat := count.map Int.natAbs
  if stride.any (fun x => decide (x < 0)) then .error .negativeStride
  else
    let sta := start.headD 0
    let s := (stride.headD 1).toNat
    let stop := sta + cnt.headD 0 * s
    if s = 0 then .error .zeroStep
    else
      let arrs := mfRead data inner sta stop s
      if arrs.isEmpty then .ok (.pylist []) else .ok (.ndarray arrs.flatten)

/-! ### Open-time construction: `Dataset.__init__`, `Dimension`

A member file handle of the collaborator is modelled by `NCFile`:
its name, its dimensions in declaration order (`name ↦ (length,
unlimited flag)`), its variables in declaration order (`name ↦ (dimension
names, shape, dtype)`), and its format tag. -/

structure NCDim where
  len : Nat
  unlimited : Bool
  deriving DecidableEq, Repr

structure NCVar where
  dims : List String
  shape : List Nat
  dtype : String
  deriving DecidableEq, Repr

structure NCFile where
  fname : String
  dims : List (String × NCDim)
  vars : List (String × NCVar)
  fformat : String
  deriving DecidableEq, Repr

/-- One outcome per raise site of `Dataset.__init__`, carrying exactly the
names the raise formats into its message.  Sites written as
`raise MFDatasetError(...)` (lines 43, 57, 81, 95, 103, 107, 113) are the
spec's `SchemaError` family; `notRecordVar` is the line-86 site, written
`raise MFDataset(...)` — not the error class (and in Python a `NameError`,
since `MFDataset` is unbound inside the module; so is `MFDatasetError`
itself, which no import or definition introduces).  The `py*` constructors
are built-in Python exceptions escaping from plain expressions:
`pyIndexErrorEmptyList` from `cdfFiles[0]` on an empty sequence (line 27),
`pyIndexError`/`pyKeyError` from `part.dimensions[vInst.dimensions[0]]`
(line 85) and `part.dimensions[unlimDimName]` (line 121), and
`pyValueError` from line 89, where `varInfo[v][:3]` *reads the member
variable's first records* and tuple-unpacks them into three names — which
succeeds only when the member holds at least 3 records (the three values
are then immediately overwritten by lines 90-92). -/
inductive OpenErr
  | pyIndexErrorEmptyList
  | noUnlimDim (master : String)
  | noRecVar (master : String)
  | varNotDefined (v f : String)
  | notRecordVar (v f : String)
  | pyIndexErrorNoDims (v f : String)
  | pyKeyError (d f : String)
  | pyValueError (v f : String)
  | dimsMismatch (v master f : String) (md ed : List String)
  | rankMismatch (v master f : String) (mr er : Nat)
  | shapeMismatch (v master f : String) (ms es : List Nat)
  | typeMismatch (v master f : String) (mt et : String)
  deriving DecidableEq, Repr

/-- Does this raise site textually read `raise MFDatasetError(...)` — the
module's schema-mismatch error family (the spec's `SchemaError`)? -/
def OpenErr.isMFDatasetError : OpenErr → Bool
  | .noUnlimDim _ | .noRecVar _ | .varNotDefined _ _ | .dimsMismatch .. | .rankMismatch ..
  | .shapeMismatch .. | .typeMismatch .. => true
  | _ => false

/-- Does the error name both the master file and the member file in its
message arguments? -/
def OpenErr.namesBothFiles : OpenErr → Bool
  | .dimsMismatch .. | .rankMismatch .. | .shapeMismatch .. | .typeMismatch .. => true
  | _ => false

/-- Is the error one of Python's built-in exceptions (IndexError,
KeyError, ValueError) escaping from a plain expression, as opposed to an
error the module raises deliberately? -/
def OpenErr.isPyBuiltin : OpenErr → Bool
  | .pyIndexErrorEmptyList | .pyIndexErrorNoDims _ _ | .pyKeyError _ _ | .pyValueError _ _ => true
  | _ => false

/-- The virtual `Dimension` class (lines 158-165): it stores the per-file
unlimited lengths and the total at construction. -/
structure MFDim where
  dimlens : List Nat
  dimtotlen : Nat
  deriving DecidableEq, Repr

/-- `Dimension.__len__` (lines 162-163): returns the stored total. -/
def MFDim.len (d : MFDim) : Nat := d.dimtotlen

/-- `Dimension.isunlimited` (lines 164-165): always `True`. -/
def MFDim.isunlimited (_ : MFDim) : Bool := true

/-- An entry of the aggregate's dimension map: either the master's plain
dimension, or (for unlimited dimensions) the wrapping virtual `Dimension`
substituted at lines 131-133. -/
inductive AggDim
  | plain (d : NCDim)
  | wrapped (d : MFDim)
  deriving DecidableEq, Repr

/-- The state attached to the `MFDataset.Dataset` instance at the end of
`__init__` (lines 123-140), restricted to the fields the spec's claims
are about. -/
structure Agg where
  cdfFiles : List String
  cdfVLen : List Nat
  cdfTLen : Nat
  cdfRecVar : List (String × List NCVar)
  dims : List (String × AggDim)
  fileFormat : List String
  deriving DecidableEq, Repr

/-- Association-list lookup, the model of a Python dict/OrderedDict
indexing (`d[k]`). -/
def alookup (k : String) : List (String × β) → Option β
  | [] => none
  | (k', v) :: rest => if k' = k then some v else alookup k rest

/-- Lines 36-41: scan the master's dimensions for an unlimited one
(`unlimDimName`, `unlimDimId`); the loop keeps overwriting, so the *last*
unlimited dimension wins. -/
def findUnlimited (dims : List (String × NCDim)) : Option (String × NCDim) :=
  dims.foldl (fun acc p => if p.2.unlimited then some p else acc) none

/-- Lines 47-55: the master's record variables — every variable with at
least one dimension whose first dimension is the unlimited one — in the
master's variable order, with their `(dims, shape, dtype)` info. -/
def masterRecVars (vars : List (String × NCVar)) (unlimName : String) :
    List (String × NCVar) :=
  vars.filter (fun p => decide (p.2.dims ≠ [] ∧ p.2.dims.headD "" = unlimName))

/-- Lines 78-118: validate one master record variable `v` against member
file `part`, returning the member's instance of the variable on success.
The checks run in source order: presence (line 80), record-dimension
check (line 85), the accidental data read of line 89 (see `OpenErr`),
dimension names (line 94), rank (line 102), non-record shape (line 106),
dtype (line 112). -/
def checkMemberVar (master : String) (part : NCFile) (v : String) (mv : NCVar) :
    Except OpenErr NCVar :=
  match alookup v part.vars with
  | none => .error (.varNotDefined v part.fname)
  | some vInst =>
    match vInst.dims.head? with
    | none => .error (.pyIndexErrorNoDims v part.fname)
    | some d0 =>
      match alookup d0 part.dims with
      | none => .error (.pyKeyError d0 part.fname)
      | some dim =>
        if ¬ dim.unlimited then .error (.notRecordVar v part.fname)
        else if vInst.shape.headD 0 < 3 then .error (.pyValueError v part.fname)
        else if mv.dims ≠ vInst.dims then
          .error (.dimsMismatch v master part.fname mv.dims vInst.dims)
        else if mv.shape.length ≠ vInst.shape.length then
          .error (.rankMismatch v master part.fname mv.shape.length vInst.shape.length)
        else if mv.shape.tail ≠ vInst.shape.tail then
          .error (.shapeMismatch v master part.fname mv.shape vInst.shape)
        else if mv.dtype ≠ vInst.dtype then
          .error (.typeMismatch v master part.fname mv.dtype vInst.dtype)
        else .ok vInst

/-- The inner loop of lines 78-118 over all master record variables, in
master order, returning the member's variable instances (the values the
code appends to `cdfRecVar[v]`) or the first error raised. -/
def checkMemberVars (master : String) (part : NCFile) :
    List (String × NCVar) → Except OpenErr (List NCVar)
  | [] => .ok []
  | (v, mv) :: rest =>
    match checkMemberVar master part v mv with
    | .error e => .error e
    | .ok vi =>
      match checkMemberVars master part rest with
      | .error e => .error e
      | .ok vis => .ok (vi :: vis)

/-- Lines 75-121, the loop over the non-master member files.  For each
remaining file: open it (line 76 — the handle is recorded as opened before
any check runs), validate every master record variable against it, then
record its unlimited-dimension length (line 121) and format tag.  On the
first error, the error propagates together with the list of member file
handles opened so far and never closed — `__init__` contains no `close()`
call and no `try/finally`, so every handle stays open when the exception
escapes. -/
def mfMembers (master : String) (recVars : List (String × NCVar)) (unlimName : String)
    (openedSoFar : List String) :
    List NCFile → Except (OpenErr × List String) (List Nat × List (List NCVar) × List String)
  | [] => .ok ([], [], [])
  | part :: rest =>
    let opened := openedSoFar ++ [part.fname]
    match checkMemberVars master part recVars with
    | .error e => .error (e, opened)
    | .ok vis =>
      match alookup unlimName part.dims with
      | none => .error (.pyKeyError unlimName part.fname, opened)
      | some d =>
        match mfMembers master recVars unlimName opened rest with
        | .error es => .error es
        | .ok (vlens, viss, fmts) => .ok (d.len :: vlens, vis :: viss, part.fformat :: fmts)

/-- Lines 62-70 and 118: the record-variable mapping `cdfRecVar` — for the
`i`-th master record variable, the master's instance followed by each
member file's instance, in file order. -/
def buildRecVar (recVars : List (String × NCVar)) (viss : List (List NCVar)) :
    List (String × List NCVar) :=
  recVars.enum.map (fun p => (p.2.1, p.2.2 :: viss.filterMap (fun vis => vis[p.1]?)))

/-- `Dataset.__init__` (lines 10-140).  An error result carries the raise
site together with the member file handles that were opened before the
exception propagated (none of which the code closes); a success result is
the aggregate state.  The empty input list raises Python's `IndexError`
at `cdfFiles[0]` (line 27) before any file is opened. -/
def mfOpen : List NCFile → Except (OpenErr × List String) Agg
  | [] => .error (.pyIndexErrorEmptyList, [])
  | masterF :: rest =>
    match findUnlimited masterF.dims with
    | none => .error (.noUnlimDim masterF.fname, [masterF.fname])
    | some unlim =>
      if (masterRecVars masterF.vars unlim.1).isEmpty then
        .error (.noRecVar masterF.fname, [masterF.fname])
      else
        match mfMembers masterF.fname (masterRecVars masterF.vars unlim.1) unlim.1
            [masterF.fname] rest with
        | .error es => .error es
        | .ok (vlens, viss, fmts) =>
          .ok { cdfFiles := masterF.fname :: rest.map NCFile.fname
                cdfVLen := unlim.2.len :: vlens
                cdfTLen := (unlim.2.len :: vlens).sum
                cdfRecVar := buildRecVar (masterRecVars masterF.vars unlim.1) viss
                dims := masterF.dims.map (fun p =>
                  if p.2.unlimited then
                    (p.1, AggDim.wrapped ⟨unlim.2.len :: vlens, (unlim.2.len :: vlens).sum⟩)
                  else (p.1, AggDim.plain p.2))
                fileFormat := masterF.fformat :: fmts }

/-- Global record offset at which member file `n` starts: the sum of the
record counts of the files before it. -/
def offN (recLen : List Nat) (n : Nat) : Nat := (recLen.take n).sum

/-- The member file owning global record position `i`. -/
def fileOf : List Nat → Nat → Nat
  | [], _ => 0
  | k :: rest, i => if i < k then 0 else fileOf rest (i - k) + 1

/-- Proof helper: walk the member files in order with a running global
offset `o`, extracting from each file the records whose global position is
in `T` (a set of selected global positions). -/
def groupedAux : List (List α) → Nat → List Nat → List α
  | [], _, _ => []
  | d :: rest, o, T =>
    ((T.filter (fun x => decide (o ≤ x ∧ x < o + d.length))).map (fun x => x - o)).filterMap
      (fun j => d[j]?) ++ groupedAux rest (o + d.length) T

/-- Concrete master file: unlimited dimension `t` of length 5, fixed
dimension `y` of length 3, one record variable `v` of shape `(5, 3)`. -/
def fileA : NCFile :=
  { fname := "a.nc"
    dims := [("t", ⟨5, true⟩), ("y", ⟨3, false⟩)]
    vars := [("v", ⟨["t", "y"], [5, 3], "i4"⟩)]
    fformat := "NETCDF3_CLASSIC" }

/-- Concrete compatible member file: 7 records of the same variable. -/
def fileB : NCFile :=
  { fname := "b.nc"
    dims := [("t", ⟨7, true⟩), ("y", ⟨3, false⟩)]
    vars := [("v", ⟨["t", "y"], [7, 3], "i4"⟩)]
    fformat := "NETCDF4_CLASSIC" }

/-- Concrete invalid member file: the record variable's first dimension
`t` exists but is not unlimited. -/
def fileBadRec : NCFile :=
  { fname := "bad.nc"
    dims := [("t", ⟨7, false⟩), ("y", ⟨3, false⟩)]
    vars := [("v", ⟨["t", "y"], [7, 3], "i4"⟩)]
    fformat := "NETCDF4_CLASSIC" }

/-- The aggregate state produced by opening `[fileA, fileB]`. -/
def aggAB : Agg :=
  { cdfFiles := ["a.nc", "b.nc"]
    cdfVLen := [5, 7]
    cdfTLen := 12
    cdfRecVar := [("v", [⟨["t", "y"], [5, 3], "i4"⟩, ⟨["t", "y"], [7, 3], "i4"⟩])]
    dims := [("t", .wrapped ⟨[5, 7], 12⟩), ("y", .plain ⟨3, false⟩)]
    fileFormat := ["NETCDF3_CLASSIC", "NETCDF4_CLASSIC"] }

example : pySlice [10, 11, 12, 13, 14, 15] 1 6 2 = [11, 13, 15] := by decide

example : mfOpen [fileA, fileB] = .ok aggAB := by rfl

example : mfOpen [fileA, fileBadRec]
    = .error (.notRecordVar "v" "bad.nc", ["a.nc", "bad.nc"]) := by rfl

example : localsOf [5, 7, 3] 4 14 2 0 = [4] := by decide
example : localsOf [5, 7, 3] 4 14 2 1 = [1, 3, 5] := by decide
example : localsOf [5, 7, 3] 4 14 2 2 = [0] := by decide
example : subReads [5, 7, 3] 4 14 2 = [(0, 4, 5), (1, 1, 6), (2, 0, 1)] := by decide

example :
    mfGetitem [[0, 1, 2, 3, 4], [5, 6, 7, 8, 9, 10, 11], [12, 13, 14]] id [4] [5] [2]
      = .ok (.ndarray [4, 6, 8, 10, 12]) := by rfl

example :
    mfGetitem [[0, 1, 2], [3, 4]] id [0] [5] [1, -1]
      = .error .negativeStride := by rfl

/-! ### Basic facts about Python slicing -/

theorem mem_pySliceIdx {len a b s i : Nat} :
    i ∈ pySliceIdx len a b s ↔ i < len ∧ a ≤ i ∧ i < b ∧ s ∣ (i - a) := by
  simp [pySliceIdx, List.mem_filter, List.mem_range, and_assoc]

theorem pairwise_pySliceIdx (len a b s : Nat) :
    (pySliceIdx len a b s).Pairwise (· < ·) :=
  (List.pairwise_lt_range len).filter _

/-- The head of a strictly increasing list is its minimum. -/
theorem head_le_of_pairwise_lt {i : Nat} {is : List Nat}
    (h : (i :: is).Pairwise (· < ·)) {x : Nat} (hx : x ∈ i :: is) : i ≤ x := by
  rcases List.mem_cons.mp hx with rfl | hx
  · exact Nat.le_refl x
  · exact Nat.le_of_lt ((List.pairwise_cons.mp h).1 x hx)

theorem getLastD_cons (j i : Nat) (js : List Nat) :
    (j :: js).getLastD i = js.getLastD j := by
  cases js <;> rfl

/-- The last element of a strictly increasing list is its maximum. -/
theorem le_getLastD_of_pairwise_lt :
    ∀ {is : List Nat} {i : Nat}, (i :: is).Pairwise (· < ·) →
      ∀ {x : Nat}, x ∈ i :: is → x ≤ is.getLastD i
  | [], i, _, x, hx => by
    rcases List.mem_cons.mp hx with rfl | hx
    · exact Nat.le_refl x
    · cases hx
  | j :: js, i, h, x, hx => by
    have h' : (j :: js).Pairwise (· < ·) := (List.pairwise_cons.mp h).2
    rw [getLastD_cons]
    rcases List.mem_cons.mp hx with rfl | hx
    · calc x ≤ j := Nat.le_of_lt ((List.pairwise_cons.mp h).1 j (by simp))
        _ ≤ js.getLastD j := le_getLastD_of_pairwise_lt h' (by simp)
    · exact le_getLastD_of_pairwise_lt h' hx

theorem getLastD_mem : ∀ (is : List Nat) (i : Nat), is.getLastD i ∈ i :: is
  | [], i => by simp
  | j :: js, i => by
    have h := getLastD_mem js j
    rw [getLastD_cons]
    exact List.mem_cons_of_mem i h

/-- Two strictly increasing lists of naturals with the same members are
equal. -/
theorem pairwise_lt_ext :
    ∀ {l₁ l₂ : List Nat}, l₁.Pairwise (· < ·) → l₂.Pairwise (· < ·) →
      (∀ x, x ∈ l₁ ↔ x ∈ l₂) → l₁ = l₂
  | [], [], _, _, _ => rfl
  | [], b :: l₂, _, _, hm => by simpa using (hm b).mpr (by simp)
  | a :: l₁, [], _, _, hm => by simpa using (hm a).mp (by simp)
  | a :: l₁, b :: l₂, h₁, h₂, hm => by
    have hab : a = b := by
      have ha : a ∈ b :: l₂ := (hm a).mp (by simp)
      have hb : b ∈ a :: l₁ := (hm b).mpr (by simp)
      exact Nat.le_antisymm (head_le_of_pairwise_lt h₁ hb) (head_le_of_pairwise_lt h₂ ha)
    subst hab
    have htl : ∀ x, x ∈ l₁ ↔ x ∈ l₂ := by
      intro x
      constructor
      · intro hx
        have hax : a < x := (List.pairwise_cons.mp h₁).1 x hx
        rcases List.mem_cons.mp ((hm x).mp (List.mem_cons_of_mem a hx)) with rfl | h
        · exact absurd hax (Nat.lt_irrefl x)
        · exact h
      · intro hx
        have hax : a < x := (List.pairwise_cons.mp h₂).1 x hx
        rcases List.mem_cons.mp ((hm x).mpr (List.mem_cons_of_mem a hx)) with rfl | h
        · exact absurd hax (Nat.lt_irrefl x)
        · exact h
    have := pairwise_lt_ext (List.pairwise_cons.mp h₁).2 (List.pairwise_cons.mp h₂).2 htl
    rw [this]

/-- Subtracting a common lower bound preserves strict increase. -/
theorem pairwise_lt_map_sub {l : List Nat} {o : Nat}
    (hb : ∀ x ∈ l, o ≤ x) (h : l.Pairwise (· < ·)) :
    (l.map (fun x => x - o)).Pairwise (· < ·) := by
  induction l with
  | nil => simp
  | cons a t ih =>
    rw [List.pairwise_cons] at h
    simp only [List.map_cons, List.pairwise_cons]
    refine ⟨?_, ih (fun x hx => hb x (List.mem_cons_of_mem a hx)) h.2⟩
    intro y hy
    rcases List.mem_map.mp hy with ⟨x, hx, rfl⟩
    have h1 : a < x := h.1 x hx
    have h2 : o ≤ a := hb a (by simp)
    omega

/-! ### The global record index: offsets and owning files -/

@[simp] theorem offN_zero (recLen : List Nat) : offN recLen 0 = 0 := rfl

theorem offN_succ (k : Nat) (rest : List Nat) (n : Nat) :
    offN (k :: rest) (n + 1) = k + offN rest n := by
  simp [offN, List.take_succ_cons]

theorem offN_add_getD_le :
    ∀ (recLen : List Nat) (n : Nat), offN recLen n + recLen.getD n 0 ≤ recLen.sum
  | [], n => by simp [offN]
  | k :: rest, 0 => by simp [offN, List.sum_cons, Nat.le_add_right]
  | k :: rest, n + 1 => by
    rw [offN_succ]
    have := offN_add_getD_le rest n
    simp only [List.getD_cons_succ, List.sum_cons]
    omega

theorem recIndexAux_length :
    ∀ (recLen : List Nat) (m : Nat), (recIndexAux recLen m).length = recLen.sum
  | [], _ => rfl
  | k :: rest, m => by
    simp [recIndexAux, recIndexAux_length rest (m + 1)]

theorem recIndex_length (recLen : List Nat) : (recIndex recLen).length = recLen.sum :=
  recIndexAux_length recLen 0

/-- Position `i` of the aggregate lies inside the interval of file `n`
exactly when `fileOf` assigns it to `n`. -/
theorem interval_iff_fileOf :
    ∀ {recLen : List Nat} {i : Nat}, i < recLen.sum → ∀ n : Nat,
      ((offN recLen n ≤ i ∧ i < offN recLen n + recLen.getD n 0) ↔ fileOf recLen i = n)
  | [], i, hi, n => by simp at hi
  | k :: rest, i, hi, 0 => by
    simp only [offN_zero, Nat.zero_add, List.getD_cons_zero, fileOf]
    split <;> omega
  | k :: rest, i, hi, n + 1 => by
    rw [offN_succ]
    simp only [List.getD_cons_succ, fileOf]
    by_cases hik : i < k
    · simp only [if_pos hik]
      constructor
      · intro h; omega
      · intro h; cases h
    · simp only [if_neg hik]
      have hi' : i - k < rest.sum := by
        simp only [List.sum_cons] at hi; omega
      have := interval_iff_fileOf hi' n
      constructor
      · intro h
        have : fileOf rest (i - k) = n := this.mp (by omega)
        omega
      · intro h
        have hn : fileOf rest (i - k) = n := by omega
        have := this.mpr hn
        omega

/-- The zipped index list holds, at global position `i`, the pair
`(local offset of i in its file, index of that file)` (offset by the
auxiliary base `m`). -/
theorem recIndexAux_getElem? :
    ∀ (recLen : List Nat) (m i : Nat), i < recLen.sum →
      (recIndexAux recLen m)[i]? =
        some (i - offN recLen (fileOf recLen i), m + fileOf recLen i)
  | [], m, i, hi => by simp at hi
  | k :: rest, m, i, hi => by
    simp only [recIndexAux, fileOf]
    by_cases hik : i < k
    · rw [List.getElem?_append_left (by simpa using hik)]
      simp [List.getElem?_map, List.getElem?_range hik, if_pos hik, offN]
    · have hlen : ((List.range k).map (fun i => (i, m))).length ≤ i := by
        simpa using Nat.le_of_not_lt hik
      rw [List.getElem?_append_right hlen]
      have hi' : i - k < rest.sum := by
        simp only [List.sum_cons] at hi; omega
      have ih := recIndexAux_getElem? rest (m + 1) (i - k) hi'
      simp only [List.length_map, List.length_range] at ih ⊢
      rw [ih, if_neg hik, offN_succ]
      congr 2
      · omega
      · omega

theorem map_filter_eq_filterMap {α β : Type _} (p : α → Bool) (f : α → β) :
    ∀ l : List α, (l.filter p).map f = l.filterMap (fun i => if p i then some (f i) else none)
  | [] => rfl
  | a :: t => by
    by_cases h : p a <;>
      simp [List.filter_cons, h, map_filter_eq_filterMap p f t]

/-- The local offsets the slicer selects inside member file `n` are the
globally selected positions that fall in file `n`'s interval, shifted by
the file's starting offset. -/
theorem localsOf_eq (recLen : List Nat) (sta stop s n : Nat) :
    localsOf recLen sta stop s n =
      ((pySliceIdx recLen.sum sta stop s).filter
        (fun i => decide (offN recLen n ≤ i ∧ i < offN recLen n + recLen.getD n 0))).map
        (fun i => i - offN recLen n) := by
  rw [localsOf, lstOf, pySlice, recIndex_length,
    List.filter_filterMap, List.map_filterMap, map_filter_eq_filterMap]
  apply List.filterMap_congr
  intro i hi
  have hiL : i < recLen.sum := (mem_pySliceIdx.mp hi).1
  have hget := recIndexAux_getElem? recLen 0 i hiL
  rw [recIndex, hget]
  by_cases hfo : fileOf recLen i = n
  · have hint := (interval_iff_fileOf hiL n).mpr hfo
    simp [Option.filter, hfo, ← List.getD_eq_getElem?_getD, hint]
  · have hint : ¬ (offN recLen n ≤ i ∧ i < offN recLen n + recLen.getD n 0) :=
      fun h => hfo ((interval_iff_fileOf hiL n).mp h)
    simp [Option.filter, hfo, ← List.getD_eq_getElem?_getD, hint]

/-- Key per-file identity: if the globally selected positions falling in a
file's interval `[o, o + k)`, shifted to local offsets, are `i :: is`,
then the single strided request `slice(i, last + 1, s)` on that file
selects exactly those local offsets.  This holds because consecutive
selected positions inside one file differ by exactly the global step. -/
theorem pySliceIdx_locals {L sta stop s o k : Nat}
    {i : Nat} {is : List Nat}
    (hT : ((pySliceIdx L sta stop s).filter
            (fun x => decide (o ≤ x ∧ x < o + k))).map (fun x => x - o) = i :: is) :
    pySliceIdx k i (is.getLastD i + 1) s = i :: is := by
  have hfb : ∀ x ∈ (pySliceIdx L sta stop s).filter
      (fun x => decide (o ≤ x ∧ x < o + k)), o ≤ x := by
    intro x hx
    exact (of_decide_eq_true (List.mem_filter.mp hx).2).1
  have hTpw : (i :: is).Pairwise (· < ·) := by
    rw [← hT]
    exact pairwise_lt_map_sub hfb ((pairwise_pySliceIdx L sta stop s).filter _)
  have hmemT : ∀ x, x ∈ i :: is ↔ (x + o ∈ pySliceIdx L sta stop s ∧ x < k) := by
    intro x
    rw [← hT]
    constructor
    · intro hx
      rcases List.mem_map.mp hx with ⟨y, hy, rfl⟩
      rcases List.mem_filter.mp hy with ⟨hyS, hyq⟩
      rcases of_decide_eq_true hyq with ⟨h1, h2⟩
      have : y - o + o = y := by omega
      rw [this]
      exact ⟨hyS, by omega⟩
    · rintro ⟨hxS, hxk⟩
      refine List.mem_map.mpr ⟨x + o, List.mem_filter.mpr ⟨hxS, ?_⟩, by omega⟩
      exact decide_eq_true (by omega)
  have hi_mem := (hmemT i).mp (by simp)
  have hlast_mem := (hmemT (is.getLastD i)).mp (getLastD_mem is i)
  rcases mem_pySliceIdx.mp hi_mem.1 with ⟨hiL, hista, histop, hidvd⟩
  rcases mem_pySliceIdx.mp hlast_mem.1 with ⟨hlL, hlsta, hlstop, hldvd⟩
  apply pairwise_lt_ext (pairwise_pySliceIdx k i (is.getLastD i + 1) s) hTpw
  intro j
  rw [mem_pySliceIdx, hmemT j, mem_pySliceIdx]
  constructor
  · rintro ⟨hjk, hij, hjl, hdvd⟩
    refine ⟨⟨by omega, by omega, by omega, ?_⟩, hjk⟩
    have heq : j + o - sta = (j - i) + (i + o - sta) := by omega
    rw [heq]
    exact Nat.dvd_add hdvd hidvd
  · rintro ⟨⟨hjL, hjsta, hjstop, hjdvd⟩, hjk⟩
    have hij : i ≤ j := head_le_of_pairwise_lt hTpw ((hmemT j).mpr ⟨mem_pySliceIdx.mpr ⟨hjL, hjsta, hjstop, hjdvd⟩, hjk⟩)
    have hjl : j ≤ is.getLastD i := le_getLastD_of_pairwise_lt hTpw ((hmemT j).mpr ⟨mem_pySliceIdx.mpr ⟨hjL, hjsta, hjstop, hjdvd⟩, hjk⟩)
    refine ⟨hjk, hij, by omega, ?_⟩
    have heq : j - i = (j + o - sta) - (i + o - sta) := by omega
    rw [heq]
    exact Nat.dvd_sub' hjdvd hidvd

/-- Splitting a strictly increasing list at a cut point `c`: the elements
in `[o, c)` all precede the elements in `[c, ∞)`. -/
theorem filter_split_sorted :
    ∀ {T : List Nat}, T.Pairwise (· < ·) → ∀ {o c : Nat}, o ≤ c →
      T.filter (fun x => decide (o ≤ x ∧ x < c)) ++ T.filter (fun x => decide (c ≤ x))
        = T.filter (fun x => decide (o ≤ x))
  | [], _, _, _, _ => rfl
  | a :: t, h, o, c, hoc => by
    rcases List.pairwise_cons.mp h with ⟨ha, ht⟩
    rw [List.filter_cons, List.filter_cons, List.filter_cons]
    by_cases h1 : o ≤ a
    · by_cases h2 : a < c
      · rw [decide_eq_true (And.intro h1 h2),
          decide_eq_false (fun hc : c ≤ a => absurd h2 (Nat.not_lt.mpr hc)),
          decide_eq_true h1, if_pos rfl, if_neg Bool.false_ne_true, if_pos rfl,
          List.cons_append, filter_split_sorted ht hoc]
      · have hca : c ≤ a := Nat.le_of_not_lt h2
        have hf1 : t.filter (fun x => decide (o ≤ x ∧ x < c)) = [] := by
          rw [List.filter_eq_nil_iff]
          intro x hx
          have := ha x hx
          simp only [decide_eq_true_eq]
          omega
        have hf2 : t.filter (fun x => decide (c ≤ x)) = t := by
          rw [List.filter_eq_self]
          intro x hx
          exact decide_eq_true (by have := ha x hx; omega)
        have hf3 : t.filter (fun x => decide (o ≤ x)) = t := by
          rw [List.filter_eq_self]
          intro x hx
          exact decide_eq_true (by have := ha x hx; omega)
        rw [decide_eq_false (fun hand : o ≤ a ∧ a < c => absurd hand.2 h2),
          decide_eq_true hca, decide_eq_true h1, if_neg Bool.false_ne_true,
          if_pos rfl, if_pos rfl, hf1, hf2, hf3, List.nil_append]
    · rw [decide_eq_false (fun hand : o ≤ a ∧ a < c => absurd hand.1 h1),
        decide_eq_false (fun hc : c ≤ a => h1 (Nat.le_trans hoc hc)),
        decide_eq_false h1, if_neg Bool.false_ne_true, if_neg Bool.false_ne_true,
        if_neg Bool.false_ne_true]
      exact filter_split_sorted ht hoc

/-- Walking the files in order and reading each file's selected records
locally is the same as reading the selected positions from the
concatenation of all files. -/
theorem groupedAux_eq :
    ∀ (data : List (List α)) (o : Nat) (T : List Nat), T.Pairwise (· < ·) →
      groupedAux data o T
        = (T.filter (fun x => decide (o ≤ x))).filterMap (fun x => data.flatten[x - o]?)
  | [], o, T, _ => by
    simp only [groupedAux, List.flatten_nil]
    rw [Eq.comm, List.filterMap_eq_nil_iff]
    intro a _
    simp
  | d :: rest, o, T, hT => by
    simp only [groupedAux, List.flatten_cons]
    rw [groupedAux_eq rest (o + d.length) T hT]
    rw [← filter_split_sorted hT (Nat.le_add_right o d.length), List.filterMap_append]
    congr 1
    · rw [List.filterMap_map]
      apply List.filterMap_congr
      intro x hx
      rcases of_decide_eq_true (List.mem_filter.mp hx).2 with ⟨h1, h2⟩
      have hxo : x - o < d.length := by omega
      simp only [Function.comp]
      rw [List.getElem?_append_left hxo]
    · apply List.filterMap_congr
      intro x hx
      have h1 : o + d.length ≤ x := of_decide_eq_true (List.mem_filter.mp hx).2
      have hge : d.length ≤ x - o := by omega
      rw [List.getElem?_append_right hge]
      congr 1
      omega

theorem getD_map_length :
    ∀ (data : List (List α)) (n : Nat),
      (data.map List.length).getD n 0 = (data.getD n []).length
  | [], n => by simp [List.getD]
  | d :: rest, 0 => by simp
  | d :: rest, n + 1 => by
    simp only [List.map_cons, List.getD_cons_succ]
    exact getD_map_length rest n

theorem flatten_map_filterMap {β γ : Type _} {F : Nat → Option β} {G : β → List γ} :
    ∀ l : List Nat,
      ((l.filterMap F).map G).flatten = (l.map (fun n => ((F n).map G).getD [])).flatten
  | [] => rfl
  | a :: t => by
    cases hFa : F a <;>
      simp [List.filterMap_cons, hFa, flatten_map_filterMap t]

theorem flatten_map_range_succ {β : Type _} (f : Nat → List β) (n : Nat) :
    ((List.range (n + 1)).map f).flatten
      = f 0 ++ ((List.range n).map (fun m => f (m + 1))).flatten := by
  rw [List.range_succ_eq_map, List.map_cons, List.flatten_cons, List.map_map]
  rfl

/-- Re-indexing one per-file block from the file list `d :: rest` at file
index `n + 1` to the file list `rest` at index `n`, folding `d`'s length
into the offset. -/
theorem block_succ (d : List α) (rest : List (List α)) (o : Nat) (T : List Nat) (n : Nat) :
    ((T.filter (fun x => decide (o + offN ((d :: rest).map List.length) (n + 1) ≤ x ∧
        x < o + offN ((d :: rest).map List.length) (n + 1)
          + ((d :: rest).map List.length).getD (n + 1) 0))).map
      (fun x => x - (o + offN ((d :: rest).map List.length) (n + 1)))).filterMap
      (fun j => ((d :: rest).getD (n + 1) [])[j]?)
    = ((T.filter (fun x => decide (o + d.length + offN (rest.map List.length) n ≤ x ∧
        x < o + d.length + offN (rest.map List.length) n + (rest.map List.length).getD n 0))).map
      (fun x => x - (o + d.length + offN (rest.map List.length) n))).filterMap
      (fun j => (rest.getD n [])[j]?) := by
  rw [List.map_cons, offN_succ, List.getD_cons_succ, List.getD_cons_succ, ← Nat.add_assoc]

/-- The per-file walk of `groupedAux`, written as a flat traversal of the
file indices `0, ..., nv-1` with absolute offsets. -/
theorem groupedAux_eq_range :
    ∀ (data : List (List α)) (o : Nat) (T : List Nat),
      ((List.range data.length).map (fun n =>
        ((T.filter (fun x => decide (o + offN (data.map List.length) n ≤ x ∧
            x < o + offN (data.map List.length) n + (data.map List.length).getD n 0))).map
          (fun x => x - (o + offN (data.map List.length) n))).filterMap
          (fun j => (data.getD n [])[j]?))).flatten
        = groupedAux data o T
  | [], o, T => by simp [groupedAux]
  | d :: rest, o, T => by
    rw [List.length_cons, flatten_map_range_succ, groupedAux,
      ← groupedAux_eq_range rest (o + d.length) T]
    exact congrArg₂ (· ++ ·) rfl
      (congrArg List.flatten (List.map_congr_left (fun n _ => block_succ d rest o T n)))

/-- Lines 230-243: concatenating the per-file bounded strided reads, in
ascending file order, yields exactly the requested axis-0 slice of the
concatenation of all member files' records. -/
theorem mfRead_flatten (data : List (List α)) (sta stop s : Nat) :
    ((subReads (data.map List.length) sta stop s).map
      (fun r => pySlice (data.getD r.1 []) r.2.1 r.2.2 s)).flatten
      = pySlice data.flatten sta stop s := by
  rw [subReads, flatten_map_filterMap]
  have hpt : ∀ n ∈ List.range (data.map List.length).length,
      (((fun n => match localsOf (data.map List.length) sta stop s n with
          | [] => none
          | i :: is => some (n, i, is.getLastD i + 1)) n).map
        (fun r : Nat × Nat × Nat => pySlice (data.getD r.1 []) r.2.1 r.2.2 s)).getD []
      = ((((pySliceIdx ((data.map List.length).sum) sta stop s).filter
          (fun x => decide (0 + offN (data.map List.length) n ≤ x ∧
            x < 0 + offN (data.map List.length) n + (data.map List.length).getD n 0))).map
          (fun x => x - (0 + offN (data.map List.length) n))).filterMap
          (fun j => (data.getD n [])[j]?)) := by
    intro n _
    simp only [Nat.zero_add]
    rw [← localsOf_eq]
    cases hloc : localsOf (data.map List.length) sta stop s n with
    | nil => simp
    | cons i is =>
      have hT := hloc
      rw [localsOf_eq] at hT
      simp only [Option.map_some', Option.getD_some]
      rw [pySlice, ← getD_map_length, pySliceIdx_locals hT]
  rw [List.map_congr_left hpt, List.length_map,
    groupedAux_eq_range data 0 (pySliceIdx ((data.map List.length).sum) sta stop s),
    groupedAux_eq data 0 _ (pairwise_pySliceIdx _ _ _ _),
    List.filter_eq_self.mpr (fun x _ => decide_eq_true (Nat.zero_le x)),
    pySlice, List.length_flatten]
  rfl

theorem flatten_map_map {β γ : Type _} (G : β → List α) (g : α → γ) :
    ∀ l : List β, (l.map (fun r => (G r).map g)).flatten = ((l.map G).flatten).map g
  | [] => rfl
  | a :: t => by simp [flatten_map_map G g t]

/-- The full read result (inner slicing of trailing axes included). -/
theorem mfRead_eq_map_inner (data : List (List α)) (inner : α → α) (sta stop s : Nat) :
    (mfRead data inner sta stop s).flatten = (pySlice data.flatten sta stop s).map inner := by
  rw [mfRead, flatten_map_map, mfRead_flatten]

theorem any_neg_eq_false {stride : List Int} (hnn : ∀ x ∈ stride, 0 ≤ x) :
    stride.any (fun x => decide (x < 0)) = false := by
  rw [List.any_eq_false]
  intro x hx
  simpa using hnn x hx

/-- When the strides pass the sign check and the axis-0 step is non-zero,
`__getitem__` succeeds and its element content is the concatenation of the
per-file reads. -/
theorem mfGetitem_content (data : List (List α)) (inner : α → α)
    (start : List Nat) (count stride : List Int)
    (hnn : ∀ x ∈ stride, 0 ≤ x) (hs : (stride.headD 1).toNat ≠ 0) :
    ∃ r, mfGetitem data inner start count stride = .ok r ∧
      r.toList = (mfRead data inner (start.headD 0)
        (start.headD 0 + ((count.map Int.natAbs).headD 0) * (stride.headD 1).toNat)
        (stride.headD 1).toNat).flatten := by
  rw [mfGetitem]
  simp only [any_neg_eq_false hnn, Bool.false_eq_true, if_false, if_neg hs]
  cases he : (mfRead data inner (start.headD 0)
      (start.headD 0 + ((count.map Int.natAbs).headD 0) * (stride.headD 1).toNat)
      (stride.headD 1).toNat).isEmpty
  · exact ⟨.ndarray ((mfRead data inner (start.headD 0)
      (start.headD 0 + ((count.map Int.natAbs).headD 0) * (stride.headD 1).toNat)
      (stride.headD 1).toNat).flatten), by rw [if_neg Bool.false_ne_true], rfl⟩
  · refine ⟨.pylist [], by rw [if_pos rfl], ?_⟩
    rw [List.isEmpty_iff.mp he]
    rfl

theorem pySliceIdx_eq_nil_of_le {len a b s : Nat} (h : len ≤ a) :
    pySliceIdx len a b s = [] := by
  rw [pySliceIdx, List.filter_eq_nil_iff]
  intro i hi
  have hil : i < len := List.mem_range.mp hi
  simp only [decide_eq_true_eq]
  intro hand
  exact absurd hand.1 (by omega)

theorem subReads_eq_nil_of_le {recLen : List Nat} {sta stop s : Nat}
    (h : recLen.sum ≤ sta) : subReads recLen sta stop s = [] := by
  have hloc : ∀ n, localsOf recLen sta stop s n = [] := by
    intro n
    rw [localsOf_eq, pySliceIdx_eq_nil_of_le h]
    rfl
  rw [subReads]
  apply List.filterMap_eq_nil_iff.mpr
  intro n _
  rw [hloc n]

theorem map_fst_filterMap_sublist {β : Type _} {F : Nat → Option (Nat × β)}
    (hF : ∀ n p, F n = some p → p.1 = n) :
    ∀ l : List Nat, ((l.filterMap F).map Prod.fst).Sublist l
  | [] => by simp
  | a :: t => by
    rw [List.filterMap_cons]
    cases hFa : F a with
    | none => exact List.Sublist.cons a (map_fst_filterMap_sublist hF t)
    | some p =>
      rw [List.map_cons, hF a p hFa]
      exact List.Sublist.cons₂ a (map_fst_filterMap_sublist hF t)

/-- The loop at lines 231-239 runs over the file indices `0, ..., nv-1`
once, so the files it reads from form a subsequence of `0, ..., nv-1`. -/
theorem subReads_fst_sublist (recLen : List Nat) (sta stop s : Nat) :
    ((subReads recLen sta stop s).map Prod.fst).Sublist (List.range recLen.length) := by
  rw [subReads]
  apply map_fst_filterMap_sublist
  intro n p hp
  cases hloc : localsOf recLen sta stop s n with
  | nil => rw [hloc] at hp; cases hp
  | cons i is =>
    rw [hloc] at hp
    cases hp
    rfl

theorem subReads_fst_pairwise (recLen : List Nat) (sta stop s : Nat) :
    ((subReads recLen sta stop s).map Prod.fst).Pairwise (· < ·) :=
  (List.pairwise_lt_range _).sublist (subReads_fst_sublist recLen sta stop s)

/-! ### Claim theorems -/

/-- C1: for every valid axis-0 slice `(start, count, step)` with
`step > 0` (and non-negative strides on the other axes, as required for
any read to succeed), `Variable.__getitem__` on the aggregate returns an
array whose content equals slicing a single hypothetical file holding all
member files' records concatenated in member order with the identical
resolved slice expression: read-then-concatenate equals
concatenate-then-slice. -/
theorem getitem_eq_concat_then_slice (data : List (List α)) (inner : α → α)
    (start : List Nat) (count stride : List Int)
    (hpos : 0 < stride.headD 1) (hnn : ∀ x ∈ stride, 0 ≤ x) :
    ∃ r, mfGetitem data inner start count stride = .ok r ∧
      r.toList = (pySlice data.flatten (start.headD 0)
          (start.headD 0 + ((count.map Int.natAbs).headD 0) * (stride.headD 1).toNat)
          (stride.headD 1).toNat).map inner := by
  obtain ⟨r, hr, hcontent⟩ :=
    mfGetitem_content data inner start count stride hnn (by omega)
  exact ⟨r, hr, by rw [hcontent, mfRead_eq_map_inner]⟩

theorem getitem_eq_concat_then_slice_witness :
    0 < ([2] : List Int).headD 1 ∧ (∀ x ∈ ([2] : List Int), 0 ≤ x) ∧
      ∃ r, mfGetitem [[0, 1, 2], [3, 4, 5, 6], [7, 8]] id [1] [4] [2] = .ok r ∧
        r.toList = (pySlice ([[0, 1, 2], [3, 4, 5, 6], [7, 8]] : List (List Nat)).flatten
            1 (1 + 4 * 2) 2).map id :=
  ⟨by decide, by decide,
    getitem_eq_concat_then_slice [[0, 1, 2], [3, 4, 5, 6], [7, 8]] id [1] [4] [2]
      (by decide) (by decide)⟩

/-- C2 (amended): `Variable.__getitem__` issues at most one sub-read per
touched member file — one single bounded strided axis-0 request spanning
that file's first to last selected local offset with the global step —
in strictly ascending file-index order, and concatenates the per-file
results along axis 0 in that order; for per-file record counts
`[5, 7, 3]` the request `[4:13:2]` (resolved `start=4, count=5, step=2`,
i.e. window `[4, 14)`) touches file 0 at local offset 4, file 1 at local
offsets 1, 3, 5, and file 2 at local offset **0** (global position 12 is
the first record of file 2), yielding 5 records. -/
theorem one_subread_per_touched_file :
    (∀ (recLen : List Nat) (sta stop s : Nat),
        ((subReads recLen sta stop s).map Prod.fst).Pairwise (· < ·)) ∧
    (∀ (recLen : List Nat) (sta stop s n : Nat),
        ((subReads recLen sta stop s).map Prod.fst).count n ≤ 1) ∧
    localsOf [5, 7, 3] 4 14 2 0 = [4] ∧
    localsOf [5, 7, 3] 4 14 2 1 = [1, 3, 5] ∧
    localsOf [5, 7, 3] 4 14 2 2 = [0] ∧
    subReads [5, 7, 3] 4 14 2 = [(0, 4, 5), (1, 1, 6), (2, 0, 1)] ∧
    mfGetitem [[0, 1, 2, 3, 4], [5, 6, 7, 8, 9, 10, 11], [12, 13, 14]] id [4] [5] [2]
      = .ok (.ndarray [4, 6, 8, 10, 12]) :=
  ⟨subReads_fst_pairwise,
   fun recLen sta stop s n =>
     List.nodup_iff_count_le_one.mp
       ((subReads_fst_pairwise recLen sta stop s).imp Nat.ne_of_lt) n,
   by decide, by decide, by decide, by decide, by rfl⟩

/-- C2 counterexample: with record counts `[5, 7, 3]`, the request
`[4:13:2]` touches file 2 at local offset 0, not at local offset 2 as the
claim states (file 2 starts at global position 12, so global position 12
is its local offset 0). -/
theorem scenario_file2_local_offset :
    localsOf [5, 7, 3] 4 14 2 2 = [0] ∧ localsOf [5, 7, 3] 4 14 2 2 ≠ [2] := by
  decide

/-- C3: a negative step along axis 0 (the record axis) makes
`Variable.__getitem__` raise the dedicated negative-stride rejection
(lines 198-199, the spec's `UnsupportedSliceError`) and never return
reversed or empty data — the error is returned before any member file is
read. -/
theorem negative_axis0_step_raises (data : List (List α)) (inner : α → α)
    (start : List Nat) (count stride : List Int) (h : stride.headD 1 < 0) :
    mfGetitem data inner start count stride = .error .negativeStride := by
  cases stride with
  | nil => simp at h
  | cons x t =>
    have hx : x < 0 := by simpa using h
    have hany : (x :: t).any (fun y => decide (y < 0)) = true :=
      List.any_eq_true.mpr ⟨x, by simp, decide_eq_true hx⟩
    rw [mfGetitem, hany, if_pos rfl]

theorem negative_axis0_step_raises_witness :
    ([-2, 1] : List Int).headD 1 < 0 ∧
      mfGetitem [[0, 1, 2], [3, 4]] id [0] [2] [-2, 1] = .error .negativeStride :=
  ⟨by decide, negative_axis0_step_raises [[0, 1, 2], [3, 4]] id [0] [2] [-2, 1] (by decide)⟩

/-- C9: a negative stride on ANY axis — not only the record axis — makes
`Variable.__getitem__` fail with the negative-stride `IndexError` before
any data is read: line 198 tests `(numpy.array(stride) < 0).any()` over
the whole stride vector. -/
theorem negative_stride_any_axis_raises (data : List (List α)) (inner : α → α)
    (start : List Nat) (count stride : List Int)
    (x : Int) (hx : x ∈ stride) (hneg : x < 0) :
    mfGetitem data inner start count stride = .error .negativeStride := by
  have hany : stride.any (fun y => decide (y < 0)) = true :=
    List.any_eq_true.mpr ⟨x, hx, decide_eq_true hneg⟩
  rw [mfGetitem, hany, if_pos rfl]

theorem negative_stride_any_axis_raises_witness :
    (-1 : Int) ∈ ([1, -1] : List Int) ∧ (-1 : Int) < 0 ∧
      mfGetitem [[0, 1], [2]] id [0, 0] [2, 1] [1, -1] = .error .negativeStride :=
  ⟨by decide, by decide,
    negative_stride_any_axis_raises [[0, 1], [2]] id [0, 0] [2, 1] [1, -1]
      (-1) (by decide) (by decide)⟩

/-- C10: an axis-0 request whose selected positions lie partly or wholly
beyond the total record count clips silently, Python-slice style, and
never raises; and when the selection touches no member file the function
returns the plain empty Python list `[]` (line 244), not a typed empty
array. -/
theorem out_of_range_clips (data : List (List α)) (inner : α → α)
    (start : List Nat) (count stride : List Int)
    (hpos : 0 < stride.headD 1) (hnn : ∀ x ∈ stride, 0 ≤ x) :
    (∃ r, mfGetitem data inner start count stride = .ok r) ∧
    ((data.map List.length).sum ≤ start.headD 0 →
      mfGetitem data inner start count stride = .ok (.pylist [])) := by
  constructor
  · obtain ⟨r, hr, _⟩ := mfGetitem_content data inner start count stride hnn (by omega)
    exact ⟨r, hr⟩
  · intro hbeyond
    rw [mfGetitem]
    simp only [any_neg_eq_false hnn, Bool.false_eq_true, if_false,
      if_neg (by omega : ¬ (stride.headD 1).toNat = 0)]
    rw [mfRead, subReads_eq_nil_of_le hbeyond]
    rfl

theorem out_of_range_clips_witness :
    0 < ([1] : List Int).headD 1 ∧ (∀ x ∈ ([1] : List Int), 0 ≤ x) ∧
      ((∃ r, mfGetitem [[1, 2], [3]] id [10] [5] [1] = .ok r) ∧
        ((([[1, 2], [3]] : List (List Nat)).map List.length).sum ≤ [10].headD 0 →
          mfGetitem [[1, 2], [3]] id [10] [5] [1] = .ok (.pylist []))) :=
  ⟨by decide, by decide, out_of_range_clips [[1, 2], [3]] id [10] [5] [1] (by decide) (by decide)⟩

/-! ### Open-time lemmas -/

theorem checkMemberVars_length (master : String) (part : NCFile) :
    ∀ (l : List (String × NCVar)) (vis : List NCVar),
      checkMemberVars master part l = .ok vis → vis.length = l.length
  | [], vis, h => by
    cases h
    rfl
  | (v, mv) :: rest, vis, h => by
    rw [checkMemberVars] at h
    cases hc : checkMemberVar master part v mv with
    | error e => rw [hc] at h; cases h
    | ok vi =>
      rw [hc] at h
      cases hr : checkMemberVars master part rest with
      | error e => rw [hr] at h; cases h
      | ok vis' =>
        rw [hr] at h
        cases h
        simp [checkMemberVars_length master part rest vis' hr]

theorem mfMembers_ok (master : String) (recVars : List (String × NCVar)) (unlimName : String) :
    ∀ (files : List NCFile) (opened : List String)
      (vlens : List Nat) (viss : List (List NCVar)) (fmts : List String),
      mfMembers master recVars unlimName opened files = .ok (vlens, viss, fmts) →
      vlens.length = files.length ∧ viss.length = files.length ∧
        fmts.length = files.length ∧ ∀ vis ∈ viss, vis.length = recVars.length
  | [], opened, vlens, viss, fmts, h => by
    cases h
    exact ⟨rfl, rfl, rfl, by simp⟩
  | part :: rest, opened, vlens, viss, fmts, h => by
    rw [mfMembers] at h
    cases hc : checkMemberVars master part recVars with
    | error e => rw [hc] at h; cases h
    | ok vis =>
      rw [hc] at h
      cases hd : alookup unlimName part.dims with
      | none => rw [hd] at h; cases h
      | some d =>
        rw [hd] at h
        cases hm : mfMembers master recVars unlimName (opened ++ [part.fname]) rest with
        | error es => rw [hm] at h; cases h
        | ok triple =>
          obtain ⟨vlens', viss', fmts'⟩ := triple
          rw [hm] at h
          cases h
          obtain ⟨h1, h2, h3, h4⟩ :=
            mfMembers_ok master recVars unlimName rest (opened ++ [part.fname])
              vlens' viss' fmts' hm
          refine ⟨by simp [h1], by simp [h2], by simp [h3], ?_⟩
          intro vis' hv
          rcases List.mem_cons.mp hv with rfl | hv
          · exact checkMemberVars_length master part recVars vis' hc
          · exact h4 vis' hv

theorem mfMembers_error_opened (master : String) (recVars : List (String × NCVar))
    (unlimName : String) :
    ∀ (files : List NCFile) (opened : List String) (e : OpenErr) (op : List String),
      mfMembers master recVars unlimName opened files = .error (e, op) →
      ∀ x ∈ opened, x ∈ op
  | [], opened, e, op, h => by cases h
  | part :: rest, opened, e, op, h => by
    rw [mfMembers] at h
    cases hc : checkMemberVars master part recVars with
    | error e' =>
      rw [hc] at h
      cases h
      intro x hx
      exact List.mem_append_left _ hx
    | ok vis =>
      rw [hc] at h
      cases hd : alookup unlimName part.dims with
      | none =>
        rw [hd] at h
        cases h
        intro x hx
        exact List.mem_append_left _ hx
      | some d =>
        rw [hd] at h
        cases hm : mfMembers master recVars unlimName (opened ++ [part.fname]) rest with
        | error es =>
          rw [hm] at h
          cases h
          intro x hx
          exact mfMembers_error_opened master recVars unlimName rest
            (opened ++ [part.fname]) e op hm x (List.mem_append_left _ hx)
        | ok triple =>
          obtain ⟨vlens', viss', fmts'⟩ := triple
          rw [hm] at h
          cases h

theorem filterMap_getElem_length {β : Type _} (viss : List (List β)) (i : Nat)
    (h : ∀ vis ∈ viss, i < vis.length) :
    (viss.filterMap (fun vis => vis[i]?)).length = viss.length := by
  induction viss with
  | nil => rfl
  | cons a t ih =>
    rw [List.filterMap_cons, List.getElem?_eq_getElem (h a (by simp))]
    simp only [List.length_cons]
    rw [ih (fun vis hv => h vis (List.mem_cons_of_mem a hv))]

theorem buildRecVar_entry_length (recVars : List (String × NCVar)) (viss : List (List NCVar))
    (hlen : ∀ vis ∈ viss, vis.length = recVars.length) :
    ∀ p ∈ buildRecVar recVars viss, p.2.length = viss.length + 1 := by
  intro p hp
  rw [buildRecVar] at hp
  rcases List.mem_map.mp hp with ⟨q, hq, rfl⟩
  have hq1 : q.1 < recVars.length := List.fst_lt_of_mem_enum hq
  simp only [List.length_cons]
  rw [filterMap_getElem_length viss q.1 (fun vis hv => by rw [hlen vis hv]; exact hq1)]

/-- C4: failing input.  A member file whose record variable exists and has
its first dimension present but *not* unlimited makes `open` fail through
the line-86 site written `raise MFDataset(...)`: not the
`MFDatasetError` (`SchemaError`) family the claim requires — `MFDataset`
is not even a bound name inside the module, so Python raises `NameError`
— and its message names only the member file, not both files.  (The
missing-variable site of line 81 likewise names only the member file.) -/
theorem not_record_var_wrong_raise :
    mfOpen [fileA, fileBadRec] = .error (.notRecordVar "v" "bad.nc", ["a.nc", "bad.nc"]) ∧
    OpenErr.isMFDatasetError (.notRecordVar "v" "bad.nc") = false ∧
    OpenErr.namesBothFiles (.notRecordVar "v" "bad.nc") = false ∧
    OpenErr.namesBothFiles (.varNotDefined "v" "bad.nc") = false :=
  ⟨by rfl, by rfl, by rfl, by rfl⟩

/-- C5: for every successfully opened aggregate dataset, the stored total
record count equals the sum of the per-file record counts, the per-file
record-count list has exactly one entry per member file in file order,
every record-variable entry holds exactly one variable instance per
member file, and the virtual unlimited dimension reports that same sum —
`Dimension.__len__` is a pure function of the stored state, so repeated
queries keep returning it unchanged (idempotent). -/
theorem open_invariants (files : List NCFile) (agg : Agg)
    (h : mfOpen files = .ok agg) :
    agg.cdfTLen = agg.cdfVLen.sum ∧
    agg.cdfVLen.length = files.length ∧
    (∀ p ∈ agg.cdfRecVar, p.2.length = files.length) ∧
    (∀ dn d, (dn, AggDim.wrapped d) ∈ agg.dims →
      d.len = agg.cdfVLen.sum ∧ d.isunlimited = true) := by
  cases files with
  | nil => cases h
  | cons masterF rest =>
    rw [mfOpen] at h
    split at h
    · cases h
    · rename_i unlim hu
      split at h
      · cases h
      · split at h
        · cases h
        · rename_i vlens viss fmts hm
          obtain ⟨h1, h2, h3, h4⟩ :=
            mfMembers_ok masterF.fname (masterRecVars masterF.vars unlim.1) unlim.1
              rest [masterF.fname] vlens viss fmts hm
          cases h
          refine ⟨rfl, by simp [h1], ?_, ?_⟩
          · intro p hp
            have := buildRecVar_entry_length (masterRecVars masterF.vars unlim.1) viss h4 p hp
            simp only [this, h2, List.length_cons]
          · intro dn d hd
            rcases List.mem_map.mp hd with ⟨q, hq, heq⟩
            by_cases hql : q.2.unlimited
            · rw [if_pos hql] at heq
              cases heq
              exact ⟨rfl, rfl⟩
            · rw [if_neg hql] at heq
              cases heq

theorem open_invariants_witness :
    mfOpen [fileA, fileB] = .ok aggAB ∧
      (aggAB.cdfTLen = aggAB.cdfVLen.sum ∧
       aggAB.cdfVLen.length = [fileA, fileB].length ∧
       (∀ p ∈ aggAB.cdfRecVar, p.2.length = [fileA, fileB].length) ∧
       (∀ dn d, (dn, AggDim.wrapped d) ∈ aggAB.dims →
         d.len = aggAB.cdfVLen.sum ∧ d.isunlimited = true)) :=
  ⟨by rfl, open_invariants [fileA, fileB] aggAB (by rfl)⟩

/-- C6 counterexample: when validation of member `bad.nc` fails, the
master handle and the failing member's handle are both still open when
the error propagates — the code contains no `close()` call and no
`try/finally`, so nothing is released, refuting the all-or-nothing
release the claim states. -/
theorem open_failure_leaves_handles_open :
    mfOpen [fileA, fileBadRec] = .error (.notRecordVar "v" "bad.nc", ["a.nc", "bad.nc"]) ∧
      (["a.nc", "bad.nc"] : List String) ≠ [] :=
  ⟨by rfl, by decide⟩

/-- C6 (amended): when opening fails, the error propagates and no
aggregate dataset is returned, but previously opened member file handles
are *not* released: in particular the master's handle (opened at line 31)
is still among the open handles carried out by every post-master
failure. -/
theorem open_no_cleanup (m : NCFile) (rest : List NCFile) (e : OpenErr) (opened : List String)
    (h : mfOpen (m :: rest) = .error (e, opened)) :
    m.fname ∈ opened := by
  rw [mfOpen] at h
  split at h
  · cases h
    simp
  · rename_i unlim hu
    split at h
    · cases h
      simp
    · split at h
      · rename_i es hm
        cases h
        exact mfMembers_error_opened m.fname (masterRecVars m.vars unlim.1) unlim.1
          rest [m.fname] e opened hm m.fname (by simp)
      · cases h

theorem open_no_cleanup_witness :
    mfOpen [fileA, fileBadRec] = .error (.notRecordVar "v" "bad.nc", ["a.nc", "bad.nc"]) ∧
      fileA.fname ∈ (["a.nc", "bad.nc"] : List String) :=
  ⟨by rfl,
    open_no_cleanup fileA [fileBadRec] (.notRecordVar "v" "bad.nc") ["a.nc", "bad.nc"] (by rfl)⟩

/-- C7 counterexample: an empty file list fails with Python's built-in
`IndexError` escaping from `cdfFiles[0]` (line 27) — a generic built-in
exception, not a dedicated module-level empty-file-list error as the
claim requires. -/
theorem empty_file_list_not_dedicated_error :
    mfOpen ([] : List NCFile) = .error (.pyIndexErrorEmptyList, []) ∧
      OpenErr.isPyBuiltin .pyIndexErrorEmptyList = true :=
  ⟨rfl, rfl⟩

/-- C7 (amended): opening an aggregate dataset with an empty file list
fails — with the built-in `IndexError` raised by indexing the empty
sequence at line 27, before any file handle is opened. -/
theorem empty_file_list_raises :
    mfOpen ([] : List NCFile) = .error (.pyIndexErrorEmptyList, []) := rfl

/-- C8 counterexample: `Dimension.__len__` (line 163) returns the total
stored at construction, *not* a recomputation from the live per-file
counts: a `Dimension` whose count list no longer sums to the stored total
still reports the stored total. -/
theorem dim_len_not_recomputed :
    MFDim.len ⟨[5, 7, 3, 100], 15⟩ = 15 ∧
      ([5, 7, 3, 100] : List Nat).sum = 115 ∧
      MFDim.len ⟨[5, 7, 3, 100], 15⟩ ≠ ([5, 7, 3, 100] : List Nat).sum := by
  decide

/-- C8 (amended): the virtual `Dimension`'s `__len__` returns the total
stored into `dimtotlen` at construction (the sum of the per-file counts
at open time); it does not recompute from the stored per-file count list,
so a later change to the counts leaves the reported length unchanged; and
`isunlimited()` always returns true. -/
theorem dim_len_stored (files : List NCFile) (agg : Agg) (dn : String) (d : MFDim)
    (h : mfOpen files = .ok agg) (hd : (dn, AggDim.wrapped d) ∈ agg.dims) :
    d.len = d.dimtotlen ∧ d.isunlimited = true ∧ d.dimtotlen = agg.cdfTLen ∧
      ∀ newLens : List Nat, MFDim.len ⟨newLens, d.dimtotlen⟩ = d.len := by
  cases files with
  | nil => cases h
  | cons masterF rest =>
    rw [mfOpen] at h
    split at h
    · cases h
    · rename_i unlim hu
      split at h
      · cases h
      · split at h
        · cases h
        · rename_i vlens viss fmts hm
          cases h
          rcases List.mem_map.mp hd with ⟨q, hq, heq⟩
          by_cases hql : q.2.unlimited
          · rw [if_pos hql] at heq
            cases heq
            exact ⟨rfl, rfl, rfl, fun newLens => rfl⟩
          · rw [if_neg hql] at heq
            cases heq

theorem dim_len_stored_witness :
    mfOpen [fileA, fileB] = .ok aggAB ∧
      ("t", AggDim.wrapped ⟨[5, 7], 12⟩) ∈ aggAB.dims ∧
      (MFDim.len ⟨[5, 7], 12⟩ = (⟨[5, 7], 12⟩ : MFDim).dimtotlen ∧
        MFDim.isunlimited ⟨[5, 7], 12⟩ = true ∧
        (⟨[5, 7], 12⟩ : MFDim).dimtotlen = aggAB.cdfTLen ∧
        ∀ newLens : List Nat, MFDim.len ⟨newLens, (⟨[5, 7], 12⟩ : MFDim).dimtotlen⟩
          = MFDim.len ⟨[5, 7], 12⟩) :=
  ⟨by rfl, by decide,
    dim_len_stored [fileA, fileB] aggAB "t" ⟨[5, 7], 12⟩ (by rfl) (by decide)⟩

end MFDataset
